import Mathlib

/-!
A verification development for the tiered cache orchestrator of go-cache.

The Go code is shallowly embedded: byte slices become `List Nat` (each element a
byte value), `time.Time` and `time.Duration` become `Int` nanosecond counts
(`UnixNano`), fallible calls return `Except Err` or `Option Err`, and the
mutation of the store list plus the store-level `Set`/`Delete` calls issued by
one orchestrator operation are made explicit as a returned store list together
with a list of `Effect`s.  Stores are external collaborators hidden behind the
`Store` interface; they are modelled behaviourally: a store carries an
arbitrary response function for `Get` and injectable failure results for
`Set`/`Delete`/`Close`, and a successful store-level `Set` makes the written
bytes the store's subsequent `Get` response for that key.

Two deliberate simplifications of machine arithmetic, noted where relevant:
durations are unbounded `Int` (Go's `time.Duration` is an `int64` and
`Time.Sub` saturates on overflow; all claims here concern values far from the
int64 boundary), and the 8-byte expiry header is encoded through an explicit
two's-complement reduction modulo 2^64, exactly as Go's
`binary.BigEndian.PutUint64(data, uint64(t.UnixNano()))` does.
-/

namespace GoCache

set_option maxRecDepth 100000

/-- Error kinds.  `isNil` is `ErrIsNil` ("Data is nil"), `keyIsNil` is
`ErrKeyIsNil` ("Key is nil"); `e n` stands for an arbitrary distinct
store/codec error value. -/
inductive Err where
  | isNil
  | keyIsNil
  | e (n : Nat)
deriving DecidableEq

/-- `timestampByteSize` from time.go. -/
def timestampByteSize : Nat := 8

/-- Big-endian byte extraction: `beBytesAux w v` is the `w` lowest bytes of
`v`, most significant first. -/
def beBytesAux : Nat → Nat → List Nat
  | 0, _ => []
  | w + 1, v => (v / 2 ^ (8 * w)) % 256 :: beBytesAux w v

/-- The 8 big-endian bytes of a 64-bit value, as written by
`binary.BigEndian.PutUint64`. -/
def encodeTimestampBytes (u : Nat) : List Nat := beBytesAux 8 u

/-- `binary.BigEndian.Uint64` over the first 8 bytes of the buffer (Go panics
when the buffer is shorter; every caller in the source guards the length). -/
def beUint64 (buf : List Nat) : Nat :=
  (buf.take 8).foldl (fun acc b => acc * 256 + b % 256) 0

/-- Go's `uint64(t)` conversion of an `int64`: two's-complement reduction. -/
def uint64OfInt64 (t : Int) : Nat := (t.emod (2 ^ 64)).toNat

/-- Go's `int64(u)` conversion of a `uint64`: two's-complement reading. -/
def int64OfUint64 (u : Nat) : Int :=
  if u < 2 ^ 63 then (u : Int) else (u : Int) - 2 ^ 64

/-- `writeTimeToBytes` from time.go: stores `t.UnixNano()` as 8 big-endian
bytes over the head of `data`.  (Go panics when `data` has fewer than 8
bytes; the orchestrator always passes a buffer of length `payload + 8`.) -/
def writeTimeToBytes (t : Int) (data : List Nat) : List Nat :=
  encodeTimestampBytes (uint64OfInt64 t) ++ data.drop 8

/-- `getTimeFromBytes` from time.go: reads the first 8 bytes as an `int64`
nanosecond timestamp.  The Go code splits it into `time.Unix(sec, nsec)` with
truncating division; that reconstructs exactly the same nanosecond instant, so
the embedding keeps the raw nanosecond count. -/
def getTimeFromBytes (buf : List Nat) : Int := int64OfUint64 (beUint64 buf)

/-- Effects an orchestrator operation issues against the backing stores. -/
inductive Effect where
  | set (storeIdx : Nat) (key : String) (value : List Nat) (ttl : Int)
  | del (storeIdx : Nat) (key : String)
deriving DecidableEq

/-- Behavioural model of the `Store` interface: `getResp` is the (arbitrary)
result of `Get` for each key, and `setErr`/`delErr`/`closeErr` inject the
error results of `Set`/`Delete`/`Close`. -/
structure Store where
  getResp : String → List Nat × Option Err
  setErr : Option Err
  delErr : Option Err
  closeErr : Option Err

/-- A store whose every read misses; used only as a `getD` fallback where the
Go code indexes a list the surrounding code guarantees long enough. -/
def emptyStore : Store :=
  { getResp := fun _ => ([], none), setErr := none, delErr := none, closeErr := none }

/-- `Store.Set`: on success the written bytes become the store's `Get`
response for that key; on injected failure the store is unchanged.  The
store-level ttl is not part of the observable state (it is recorded in the
effect trace at each call site). -/
def Store.doSet (s : Store) (key : String) (value : List Nat) (_ttl : Int) :
    Store × Option Err :=
  match s.setErr with
  | some er => (s, some er)
  | none =>
    ({ s with getResp := fun k => if k = key then (value, none) else s.getResp k }, none)

/-- `Store.Delete`: on success the key's `Get` response becomes the empty
miss; on injected failure the store is unchanged. -/
def Store.doDelete (s : Store) (key : String) : Store × Option Err :=
  match s.delErr with
  | some er => (s, some er)
  | none =>
    ({ s with getResp := fun k => if k = key then ([], none) else s.getResp k }, none)

/-- `CompressNone` from cache.go (the iota constants). -/
def CompressNone : Nat := 0

/-- `Compressed` from cache.go. -/
def Compressed : Nat := 1

/-- The `compressor` struct of compressor.go: threshold plus the configured
codec function pair (fallible, like the Go `func([]byte) ([]byte, error)`). -/
structure Compressor where
  minCompressLength : Int
  encode : List Nat → Except Err (List Nat)
  decode : List Nat → Except Err (List Nat)

/-- `compressor.Match` from compressor.go: `size > c.minCompressLength`. -/
def Compressor.Match (c : Compressor) (size : Int) : Bool :=
  c.minCompressLength < size

/-- `compressor.Encode` from compressor.go: compress iff `Match(len(data))`,
then prepend the one-byte tag. -/
def Compressor.Encode (c : Compressor) (data : List Nat) : Except Err (List Nat) :=
  if c.Match (data.length : Int) then
    match c.encode data with
    | .error er => .error er
    | .ok buf => .ok (Compressed :: buf)
  else
    .ok (CompressNone :: data)

/-- `compressor.Decode` from compressor.go: empty input yields empty output;
otherwise strip the tag byte and decompress iff the tag is not
`CompressNone`. -/
def Compressor.Decode (c : Compressor) (data : List Nat) : Except Err (List Nat) :=
  match data with
  | [] => .ok []
  | tag :: rest =>
    if tag ≠ CompressNone then
      match c.decode rest with
      | .error er => .error er
      | .ok buf => .ok buf
    else
      .ok rest

/-- The `Cache` struct of cache.go.  `keyPfx` is the source's key prefix
field. -/
structure Cache where
  keyPfx : String
  ttlList : List Int
  stores : List Store
  compressor : Option Compressor

/-- `Cache.getKey`: reject the empty key, else prepend the prefix. -/
def Cache.getKey (c : Cache) (key : String) : Except Err String :=
  if key = "" then .error .keyIsNil else .ok (c.keyPfx ++ key)

/-- `Cache.getTTL`: a variadic override wins; otherwise `ttlList[index]` when
in range, else `ttlList[0]`.  (Go panics on `ttlList[0]` when the list is
empty; `New` guarantees a non-empty list, and the embedding uses a `getD`
default there.) -/
def Cache.getTTL (c : Cache) (index : Nat) (ttl : List Int) : Int :=
  match ttl with
  | t :: _ => t
  | [] =>
    if index < c.ttlList.length then c.ttlList.getD index 0
    else c.ttlList.getD 0 0

/-- The tail of `Cache.getBytes` after the tier loop: empty data is the
is-nil miss, then the optional decompression runs. -/
def Cache.finishGet (c : Cache) (data : List Nat) (ttl : Int) :
    Except Err (List Nat × Int) :=
  if data = [] then .error .isNil
  else
    match c.compressor with
    | none => .ok (data, ttl)
    | some cp =>
      match cp.Decode data with
      | .error er => .error er
      | .ok buf => .ok (buf, ttl)

/-- The tier loop of `Cache.getBytes` (cache.go lines 116-150), iterating the
remaining stores with the current index.  Returns the updated store list, the
store-write effects, and the read result.

Source correspondences, in order: a read error at the last store returns that
error; a buffer of at least 8 bytes has its expiry decoded, and a strictly
negative remaining ttl continues to the next tier; a hit at a non-zero index
triggers the promotion block — `newTTL := c.getTTL(0, ttl)` passes `ttl` as
the variadic override, so `newTTL = ttl` and the `newTTL < ttl` rewrite (which
in Go would write the fresh header into the still-nil `data` slice, a run-time
panic) is unreachable; the original buffer `buf` is then Set into store 0 with
the error discarded, and the loop breaks. -/
def Cache.getLoop (c : Cache) (key : String) (now : Int) :
    List Store → Nat → List Store × List Effect × Except Err (List Nat × Int)
  | [], _ => (c.stores, [], .error .isNil)
  | s :: rest, index =>
    let r := s.getResp key
    if r.2.isSome && rest.isEmpty then
      (c.stores, [], .error (r.2.getD .isNil))
    else if timestampByteSize ≤ r.1.length then
      let expiredAt := getTimeFromBytes r.1
      let ttl := expiredAt - now
      if ttl < 0 then
        c.getLoop key now rest (index + 1)
      else if index ≠ 0 then
        let newTTL := c.getTTL 0 [ttl]
        let ttl2 := if newTTL < ttl then newTTL else ttl
        let upd := (c.stores.getD 0 emptyStore).doSet key r.1 ttl2
        (c.stores.set 0 upd.1, [Effect.set 0 key r.1 ttl2],
          c.finishGet (r.1.drop timestampByteSize) ttl2)
      else
        (c.stores, [], c.finishGet (r.1.drop timestampByteSize) ttl)
    else
      c.getLoop key now rest (index + 1)

/-- `Cache.getBytes`: key check, tier loop over all stores, then the shared
tail.  `now` is the single `time.Now()` the Go code takes before the loop. -/
def Cache.getBytes (c : Cache) (key : String) (now : Int) :
    List Store × List Effect × Except Err (List Nat × Int) :=
  match c.getKey key with
  | .error er => (c.stores, [], .error er)
  | .ok k => c.getLoop k now c.stores 0

/-- The compression step of `Cache.setBytes` (identity when no compressor is
configured). -/
def Cache.encodeValue (c : Cache) (value : List Nat) : Except Err (List Nat) :=
  match c.compressor with
  | none => .ok value
  | some cp => cp.Encode value

/-- The tier loop of `Cache.setBytes` (cache.go lines 193-200): for each store
in order, compute the tier ttl, overwrite the 8-byte header with
`now + ttl` (`nows index` is the per-iteration `time.Now()`), and Set; the
first failure aborts and is returned.  `acc` carries the already-written
stores in reverse. -/
def Cache.setLoop (c : Cache) (key : String) (data : List Nat) (ttls : List Int)
    (nows : Nat → Int) :
    List Store → Nat → List Store → List Store × List Effect × Option Err
  | [], _, acc => (acc.reverse, [], none)
  | s :: rest, index, acc =>
    let ttl := c.getTTL index ttls
    let d := writeTimeToBytes (nows index + ttl) data
    let upd := s.doSet key d ttl
    match upd.2 with
    | some er => (acc.reverse ++ upd.1 :: rest, [Effect.set index key d ttl], some er)
    | none =>
      let r := c.setLoop key data ttls nows rest (index + 1) (upd.1 :: acc)
      (r.1, Effect.set index key d ttl :: r.2.1, r.2.2)

/-- `Cache.setBytes`: key check, optional compression, allocate
`len(value) + 8` with the payload after the header region, then the tier
loop. -/
def Cache.setBytes (c : Cache) (key : String) (value : List Nat) (ttls : List Int)
    (nows : Nat → Int) : List Store × List Effect × Option Err :=
  match c.getKey key with
  | .error er => (c.stores, [], some er)
  | .ok k =>
    match c.encodeValue value with
    | .error er => (c.stores, [], some er)
    | .ok v =>
      c.setLoop k (List.replicate timestampByteSize 0 ++ v) ttls nows c.stores 0 []

/-- The loop of `Cache.Delete` (cache.go lines 255-261): every store's Delete
is attempted; each non-nil error overwrites the running error. -/
def Cache.delLoop (c : Cache) (key : String) :
    List Store → Nat → List Store → Option Err → List Store × List Effect × Option Err
  | [], _, acc, curErr => (acc.reverse, [], curErr)
  | s :: rest, index, acc, curErr =>
    let upd := s.doDelete key
    let nextErr := match upd.2 with | some er => some er | none => curErr
    let r := c.delLoop key rest (index + 1) (upd.1 :: acc) nextErr
    (r.1, Effect.del index key :: r.2.1, r.2.2)

/-- `Cache.Delete`: key check then the all-stores sweep, returning the last
encountered error. -/
def Cache.Delete (c : Cache) (key : String) :
    List Store × List Effect × Option Err :=
  match c.getKey key with
  | .error er => (c.stores, [], some er)
  | .ok k => c.delLoop k c.stores 0 [] none

/-- The loop of `Cache.Close`: closes stores in order, first failure
returned. -/
def Cache.closeLoop : List Store → Option Err
  | [] => none
  | s :: rest =>
    match s.closeErr with
    | some er => some er
    | none => Cache.closeLoop rest

/-- `Cache.Close`. -/
def Cache.Close (c : Cache) : Option Err := Cache.closeLoop c.stores

/-- The `Option` struct of option.go, restricted to the fields `New`
consults (the bigcache sizing knobs only parameterise the external bigcache
constructor). -/
structure Opt where
  store : Option Store
  secondaryStore : Option Store
  keyPfx : String
  ttlList : List Int
  compressor : Option Compressor

/-- `New` from cache.go: use the configured store, else the bigcache-backed
default store; append the optional secondary store; default the ttl list to
`[ttl]` when none is configured.  `bigNew` stands for the result of
`newBigCacheStore(ttl, &opt)`, whose `bigcache.NewBigCache` core is an
external collaborator that may fail. -/
def New (ttl : Int) (opt : Opt) (bigNew : Except Err Store) : Except Err Cache :=
  match opt.store with
  | some s =>
    .ok { keyPfx := opt.keyPfx,
          ttlList := if opt.ttlList.isEmpty then [ttl] else opt.ttlList,
          stores := [s] ++ opt.secondaryStore.toList,
          compressor := opt.compressor }
  | none =>
    match bigNew with
    | .error er => .error er
    | .ok s =>
      .ok { keyPfx := opt.keyPfx,
            ttlList := if opt.ttlList.isEmpty then [ttl] else opt.ttlList,
            stores := [s] ++ opt.secondaryStore.toList,
            compressor := opt.compressor }

/-! ### Spec-side (claim-language) descriptions

The definitions below are written from the wording of the specification
claims, to be compared against the loop-based source embedding above: a
winning store response, the first winning index, the last store's read error,
the declarative read result, and the declarative write outcome. -/

/-- A store response that wins the read: at least 8 bytes and a decoded
expiry at or after `now` (remaining ttl not negative). -/
def winB (now : Int) (r : List Nat × Option Err) : Bool :=
  decide (timestampByteSize ≤ r.1.length) && decide (now ≤ getTimeFromBytes r.1)

/-- Index of the first winning response. -/
def firstWinIdx (now : Int) : List (List Nat × Option Err) → Option Nat
  | [] => none
  | r :: rest => if winB now r then some 0 else (firstWinIdx now rest).map (· + 1)

/-- The read error reported by the last store, if any. -/
def lastStoreErr (resps : List (List Nat × Option Err)) : Option Err :=
  match resps.getLast? with
  | none => none
  | some r => r.2

/-- Declarative description of the read result of `getBytes` over the list of
per-store read responses, for a cache without a compressor: if the first
winning response sits at the last store and that store also reported a read
error, that error is returned verbatim (the buffer is never examined); an
earlier winner returns its payload (bytes after the 8-byte header) and the
remaining ttl — unless the payload is empty, which is the is-nil miss; with no
winner at all, the last store's error (if any) is returned, else the is-nil
error. -/
def getResultSpec (now : Int) (resps : List (List Nat × Option Err)) :
    Except Err (List Nat × Int) :=
  match firstWinIdx now resps with
  | some w =>
    if decide (w + 1 = resps.length) && (lastStoreErr resps).isSome then
      .error ((lastStoreErr resps).getD .isNil)
    else
      let r := resps.getD w ([], none)
      if r.1.drop timestampByteSize = [] then .error .isNil
      else .ok (r.1.drop timestampByteSize, getTimeFromBytes r.1 - now)
  | none =>
    match lastStoreErr resps with
    | some er => .error er
    | none => .error .isNil

/-- Index of the first store whose `Set` fails. -/
def firstSetFailIdx : List Store → Option Nat
  | [] => none
  | s :: rest => if s.setErr.isSome then some 0 else (firstSetFailIdx rest).map (· + 1)

/-- The buffer written to store `i` by a `setBytes` call: 8 header bytes
holding the big-endian timestamp `now_i + ttl_i` followed by the payload
unchanged. -/
def setEntry (c : Cache) (payload : List Nat) (ttls : List Int) (nows : Nat → Int)
    (i : Nat) : List Nat :=
  encodeTimestampBytes (uint64OfInt64 (nows i + c.getTTL i ttls)) ++ payload

/-- The store-level `Set` calls issued by `setBytes` when stores
`0 .. m - 1` are reached: one write per store, in configured order, each with
its tier buffer and tier ttl. -/
def setWrites (c : Cache) (k : String) (payload : List Nat) (ttls : List Int)
    (nows : Nat → Int) (m : Nat) : List Effect :=
  (List.range m).map fun i =>
    Effect.set i k (setEntry c payload ttls nows i) (c.getTTL i ttls)

/-- The store list after `setBytes` reached stores `start .. start + m - 1`:
those stores hold their writes, later stores are untouched. -/
def setStoresSpec (c : Cache) (k : String) (payload : List Nat) (ttls : List Int)
    (nows : Nat → Int) : Nat → Nat → List Store → List Store
  | _, _, [] => []
  | _, 0, l => l
  | i, m + 1, s :: rest =>
    (s.doSet k (setEntry c payload ttls nows i) (c.getTTL i ttls)).1 ::
      setStoresSpec c k payload ttls nows (i + 1) m rest

/-- Declarative description of `setBytes` on the already-encoded payload: if
no store's `Set` fails, every store is written in order and the call succeeds;
otherwise the stores up to and including the first failing one are attempted
(the failing store keeps its state), later stores are untouched, and the
failing store's error is returned. -/
def setBytesSpec (c : Cache) (k : String) (payload : List Nat) (ttls : List Int)
    (nows : Nat → Int) : List Store × List Effect × Option Err :=
  match firstSetFailIdx c.stores with
  | none =>
    (setStoresSpec c k payload ttls nows 0 c.stores.length c.stores,
     setWrites c k payload ttls nows c.stores.length,
     none)
  | some j =>
    (setStoresSpec c k payload ttls nows 0 (j + 1) c.stores,
     setWrites c k payload ttls nows (j + 1),
     (c.stores.getD j emptyStore).setErr)

/-- A read effect is the single allowed promotion write: a store-level `Set`
against store index 0 under the prefixed key. -/
def isPromotionWrite (k : String) : Effect → Bool
  | .set i k2 _ _ => decide (i = 0) && decide (k2 = k)
  | .del _ _ => false

/-! ### Concrete gadgets used to instantiate theorems on closed inputs -/

/-- An 8-byte expiry header for nanosecond timestamp `t`. -/
def hdrBytes (t : Int) : List Nat := encodeTimestampBytes (uint64OfInt64 t)

/-- A store holding exactly one entry, under `key`, and failing nothing. -/
def okStore (key : String) (buf : List Nat) : Store :=
  { getResp := fun k => if k = key then (buf, none) else ([], none),
    setErr := none, delErr := none, closeErr := none }

/-- A copy of `s` whose `Set` fails with `er`. -/
def withSetErr (s : Store) (er : Err) : Store := { s with setErr := some er }

/-- A copy of `s` whose `Delete` fails with `er`. -/
def withDelErr (s : Store) (er : Err) : Store := { s with delErr := some er }

/-- A store whose every read fails with `er`. -/
def errGetStore (er : Err) : Store :=
  { getResp := fun _ => ([], some er), setErr := none, delErr := none, closeErr := none }

/-- A concrete codec pair (byte-list reversal) that is its own inverse. -/
def revCompressor : Compressor :=
  { minCompressLength := 2,
    encode := fun l => .ok l.reverse,
    decode := fun l => .ok l.reverse }

/-! ### Helper lemmas -/

/-- The error component of a store delete is exactly the injected error. -/
theorem doDelete_err (s : Store) (key : String) : (s.doDelete key).2 = s.delErr := by
  cases h : s.delErr <;> simp [Store.doDelete, h]

/-- The error component of a store write is exactly the injected error. -/
theorem doSet_err (s : Store) (key : String) (v : List Nat) (t : Int) :
    (s.doSet key v t).2 = s.setErr := by
  cases h : s.setErr <;> simp [Store.doSet, h]

/-- A failing store write leaves the store unchanged. -/
theorem doSet_fail (s : Store) (key : String) (v : List Nat) (t : Int) (er : Err)
    (h : s.setErr = some er) : s.doSet key v t = (s, some er) := by
  simp [Store.doSet, h]

/-- Updating list position 0 does not change the tail. -/
theorem drop_one_set_zero (l : List Store) (x : Store) :
    (l.set 0 x).drop 1 = l.drop 1 := by
  cases l <;> simp

/-- Peeling an indexed range-map from an offset. -/
theorem range_map_offset_succ {α : Type} (g : Nat → α) (n i : Nat) :
    (List.range (n + 1)).map (fun j => g (i + j))
      = g i :: (List.range n).map (fun j => g (i + 1 + j)) := by
  rw [List.range_succ_eq_map, List.map_cons, List.map_map]
  refine congrArg₂ List.cons (congrArg g (Nat.add_zero i)) ?_
  have hf : ((fun j => g (i + j)) ∘ Nat.succ) = fun j => g (i + 1 + j) :=
    funext fun j => congrArg g (by omega)
  rw [hf]

/-- An indexed range-map at offset 0 is a plain range-map. -/
theorem range_map_offset_zero {α : Type} (g : Nat → α) (n : Nat) :
    (List.range n).map (fun j => g (0 + j)) = (List.range n).map g := by
  have hf : (fun j => g (0 + j)) = g := funext fun j => congrArg g (Nat.zero_add j)
  rw [hf]

/-- A successful `New` determines the ttl list and bounds the store count. -/
theorem New_ok_shape (ttl : Int) (opt : Opt) (bigNew : Except Err Store) (c : Cache)
    (h : New ttl opt bigNew = .ok c) :
    c.ttlList = (if opt.ttlList.isEmpty then [ttl] else opt.ttlList)
    ∧ 1 ≤ c.ttlList.length ∧ 1 ≤ c.stores.length ∧ c.stores.length ≤ 2 := by
  have hfields : c.ttlList = (if opt.ttlList.isEmpty then [ttl] else opt.ttlList)
      ∧ ∃ s, c.stores = [s] ++ opt.secondaryStore.toList := by
    unfold New at h
    cases hos : opt.store with
    | some s =>
      rw [hos] at h
      cases h
      exact ⟨rfl, s, rfl⟩
    | none =>
      rw [hos] at h
      cases hbn : bigNew with
      | error er => rw [hbn] at h; cases h
      | ok s =>
        rw [hbn] at h
        cases h
        exact ⟨rfl, s, rfl⟩
  obtain ⟨ht, s, hs⟩ := hfields
  refine ⟨ht, ?_, ?_, ?_⟩
  · rw [ht]
    cases hl : opt.ttlList with
    | nil => simp
    | cons a l => simp
  · rw [hs]; simp
  · rw [hs]
    cases opt.secondaryStore <;> simp

/-! ### Claim theorems -/

/-- Claim C8: for a compressor with threshold `minCompressLength`, `Encode` is
one tag byte followed by the payload — `CompressNone` with the data unchanged
when the length is at or below the threshold, `Compressed` with the configured
compression output when above; `Decode` of empty input is empty output without
error; and `Decode` inverts `Encode` whenever the configured decode function
inverts the configured encode function, and unconditionally below the
threshold (shown here on a second payload `data2` with no codec hypotheses). -/
theorem c8_compressor_tag_and_roundtrip (cp : Compressor) (data data2 encOut : List Nat)
    (h1 : cp.encode data = .ok encOut)
    (hinv : cp.decode encOut = .ok data)
    (hsmall : (data2.length : Int) ≤ cp.minCompressLength) :
    cp.Encode data = (if cp.minCompressLength < (data.length : Int)
        then .ok (Compressed :: encOut) else .ok (CompressNone :: data))
    ∧ cp.Decode [] = .ok []
    ∧ (cp.Encode data).bind cp.Decode = .ok data
    ∧ cp.Encode data2 = .ok (CompressNone :: data2)
    ∧ (cp.Encode data2).bind cp.Decode = .ok data2 := by
  have hsmall2 : ¬ cp.minCompressLength < (data2.length : Int) := not_lt.mpr hsmall
  refine ⟨?_, rfl, ?_, ?_, ?_⟩
  · by_cases hm : cp.minCompressLength < (data.length : Int)
    · simp [Compressor.Encode, Compressor.Match, hm, h1]
    · simp [Compressor.Encode, Compressor.Match, hm]
  · by_cases hm : cp.minCompressLength < (data.length : Int)
    · simp [Compressor.Encode, Compressor.Match, hm, h1, Except.bind,
        Compressor.Decode, Compressed, CompressNone, hinv]
    · simp [Compressor.Encode, Compressor.Match, hm, Except.bind,
        Compressor.Decode, CompressNone]
  · simp [Compressor.Encode, Compressor.Match, hsmall2]
  · simp [Compressor.Encode, Compressor.Match, hsmall2, Except.bind,
      Compressor.Decode, CompressNone]

/-- Witness for C8 at the reversal codec: threshold 2, a 3-byte payload is
tagged `Compressed` and round-trips, a 1-byte payload is tagged
`CompressNone` and round-trips. -/
theorem c8_witness :
    revCompressor.Encode [1, 2, 3] = .ok [Compressed, 3, 2, 1]
    ∧ revCompressor.Decode [] = .ok []
    ∧ (revCompressor.Encode [1, 2, 3]).bind revCompressor.Decode = .ok [1, 2, 3]
    ∧ revCompressor.Encode [7] = .ok [CompressNone, 7]
    ∧ (revCompressor.Encode [7]).bind revCompressor.Decode = .ok [7] := by
  have h := c8_compressor_tag_and_roundtrip revCompressor [1, 2, 3] [7] [3, 2, 1]
    rfl rfl (by decide)
  exact ⟨h.1.trans rfl, h.2.1, h.2.2.1, h.2.2.2.1, h.2.2.2.2⟩

/-- Claim C10: every cache successfully returned by `New` has a non-empty
store list (the configured or default store plus the optional secondary
store, so one or two stores) and a non-empty TTL list, so the per-store loops
and `getTTL` never index into an empty list. -/
theorem c10_new_nonempty (ttl : Int) (opt : Opt) (bigNew : Except Err Store) (c : Cache)
    (h : New ttl opt bigNew = .ok c) :
    1 ≤ c.stores.length ∧ c.stores.length ≤ 2 ∧ 1 ≤ c.ttlList.length := by
  obtain ⟨_, h1, h2, h3⟩ := New_ok_shape ttl opt bigNew c h
  exact ⟨h2, h3, h1⟩

/-- Witness for C10: a `New` with an explicit store, no secondary store and
no ttl list yields one store and the defaulted one-entry ttl list. -/
theorem c10_witness :
    1 ≤ (Cache.mk "" [60] [okStore "k" []] none).stores.length
    ∧ (Cache.mk "" [60] [okStore "k" []] none).stores.length ≤ 2
    ∧ 1 ≤ (Cache.mk "" [60] [okStore "k" []] none).ttlList.length :=
  c10_new_nonempty 60 (Opt.mk (some (okStore "k" [])) none "" [] none)
    (.ok emptyStore) (Cache.mk "" [60] [okStore "k" []] none) rfl

/-- Claim C6: on any cache built by `New`, for every real tier index (below
the store count) the per-tier default TTL used by `Set`/`SetBytes` with no
override is `ttlList[i]` when `i` is in range, and the last entry of the ttl
list otherwise.  (The code falls back to `ttlList[0]`; under `New` the
fallback can only fire when the ttl list has exactly one entry, where first
and last coincide.) -/
theorem c6_ttl_fallback (ttl : Int) (opt : Opt) (bigNew : Except Err Store) (c : Cache)
    (i : Nat) (h : New ttl opt bigNew = .ok c) (hi : i < c.stores.length) :
    c.getTTL i [] =
      if i < c.ttlList.length then c.ttlList.getD i 0 else c.ttlList.getLastD 0 := by
  obtain ⟨_, h1, _, h3⟩ := New_ok_shape ttl opt bigNew c h
  by_cases hlt : i < c.ttlList.length
  · simp [Cache.getTTL, hlt]
  · have hone : c.ttlList.length = 1 := by omega
    cases hl : c.ttlList with
    | nil => rw [hl] at hone; simp at hone
    | cons a l =>
      rw [hl] at hone
      have hl0 : l = [] := by
        cases l with
        | nil => rfl
        | cons b l2 => simp at hone
      subst hl0
      rw [hl] at hlt
      simp [Cache.getTTL, hl, hlt]

/-- Witness for C6: a two-store cache from `New` with the one-entry ttl list
`[5]`; tier 1 exceeds the list and gets the last (only) entry. -/
theorem c6_witness :
    (Cache.mk "" [5] [emptyStore, okStore "k" []] none).getTTL 1 [] =
      if 1 < (Cache.mk "" [5] [emptyStore, okStore "k" []] none).ttlList.length
      then (Cache.mk "" [5] [emptyStore, okStore "k" []] none).ttlList.getD 1 0
      else (Cache.mk "" [5] [emptyStore, okStore "k" []] none).ttlList.getLastD 0 :=
  c6_ttl_fallback 60 (Opt.mk (some emptyStore) (some (okStore "k" [])) "" [5] none)
    (.ok emptyStore) (Cache.mk "" [5] [emptyStore, okStore "k" []] none) 1 rfl (by decide)

/-- The delete loop visits every remaining store in order and folds errors
with last-one-wins semantics. -/
theorem delLoop_spec (c : Cache) (key : String) :
    ∀ (rest : List Store) (i : Nat) (acc : List Store) (curErr : Option Err),
      (c.delLoop key rest i acc curErr).2.1
        = (List.range rest.length).map (fun j => Effect.del (i + j) key)
      ∧ (c.delLoop key rest i acc curErr).2.2
        = (rest.map Store.delErr).foldl (fun a b => if b.isSome then b else a) curErr := by
  intro rest
  induction rest with
  | nil => intro i acc curErr; simp [Cache.delLoop]
  | cons s rest ih =>
    intro i acc curErr
    obtain ⟨ht, he⟩ :=
      ih (i + 1) ((s.doDelete key).1 :: acc)
        (match (s.doDelete key).2 with | some er => some er | none => curErr)
    constructor
    · show Effect.del i key :: _ = _
      rw [List.length_cons, range_map_offset_succ (fun j => Effect.del j key)]
      · exact congrArg _ ht
    · show (c.delLoop key rest (i + 1) _ _).2.2 = _
      rw [he, List.map_cons, List.foldl_cons]
      refine congrArg
        (fun z => (rest.map Store.delErr).foldl (fun a b => if b.isSome then b else a) z) ?_
      rw [doDelete_err]
      cases s.delErr <;> simp

/-- Claim C7: `Delete` with a non-empty key invokes `Delete` on every store
in configured order regardless of individual failures, and returns the last
encountered error (the fold keeps the most recent non-nil error), or nil when
every store's delete succeeded. -/
theorem c7_delete_sweep (c : Cache) (key : String) (hk : key ≠ "") :
    (c.Delete key).2.1
      = (List.range c.stores.length).map (fun j => Effect.del j (c.keyPfx ++ key))
    ∧ (c.Delete key).2.2
      = (c.stores.map Store.delErr).foldl (fun a b => if b.isSome then b else a) none := by
  obtain ⟨ht, he⟩ := delLoop_spec c (c.keyPfx ++ key) c.stores 0 [] none
  have hu : c.Delete key = c.delLoop (c.keyPfx ++ key) c.stores 0 [] none := by
    unfold Cache.Delete Cache.getKey
    simp [hk]
  rw [hu, ht, he]
  exact ⟨range_map_offset_zero (fun j => Effect.del j (c.keyPfx ++ key)) _, rfl⟩

/-- Witness for C7: three stores, the first and third failing; both del
effects happen and the third store's error is returned. -/
theorem c7_witness :
    ((Cache.mk "p:" [9] [withDelErr emptyStore (.e 1), emptyStore,
        withDelErr emptyStore (.e 2)] none).Delete "k").2.1
      = (List.range 3).map (fun j => Effect.del j "p:k")
    ∧ ((Cache.mk "p:" [9] [withDelErr emptyStore (.e 1), emptyStore,
        withDelErr emptyStore (.e 2)] none).Delete "k").2.2
      = ([some (Err.e 1), none, some (Err.e 2)]).foldl
          (fun a b => if b.isSome then b else a) none :=
  c7_delete_sweep (Cache.mk "p:" [9] [withDelErr emptyStore (.e 1), emptyStore,
    withDelErr emptyStore (.e 2)] none) "k" (by decide)

/-- Claim C1 (code bug evidence): tier 0 misses, tier 1 holds an entry with
remaining ttl 100 while tier 0's configured default ttl is 10.  The claim
(and the code's own comment) require the promoted tier-0 copy to be clamped:
store-level ttl `min(100, 10) = 10` and a rebuilt header `now + 10 = 1010`.
The code instead promotes with store-level ttl 100 and the untouched original
buffer whose header still reads 1100, because `getTTL(0, ttl)` receives the
remaining ttl as a variadic override and returns it, so the clamp comparison
`newTTL < ttl` can never hold. -/
theorem c1_promotion_unclamped :
    (Cache.mk "" [10] [emptyStore, okStore "k" (hdrBytes 1100 ++ [7])] none).getTTL 0 [] = 10
    ∧ ((Cache.mk "" [10] [emptyStore, okStore "k" (hdrBytes 1100 ++ [7])] none).getBytes
        "k" 1000).2.1 = [Effect.set 0 "k" (hdrBytes 1100 ++ [7]) 100]
    ∧ ((Cache.mk "" [10] [emptyStore, okStore "k" (hdrBytes 1100 ++ [7])] none).getBytes
        "k" 1000).2.2 = .ok ([7], 100) :=
  ⟨rfl, rfl, rfl⟩

/-- Claim C5 (counterexample): a single store holds an entry whose 8-byte
header stores the 64-bit value 0.  The claim says such an entry means "no
expiry tracked" and is returned as a valid hit; the code decodes the header
to the Unix epoch, computes a negative remaining ttl at `now = 1000`, and
reports the is-nil miss instead of the payload `[3]`. -/
theorem c5_counterexample :
    ((Cache.mk "" [10] [okStore "k" (List.replicate 8 0 ++ [3])] none).getBytes
        "k" 1000).2.2 = .error .isNil
    ∧ beUint64 (List.replicate 8 0 ++ [3]) = 0 :=
  ⟨rfl, rfl⟩

/-- Claim C5 (amended): a header storing the 64-bit value 0 decodes to
timestamp 0 (the Unix epoch, which is what `time.Unix(0, 0)` denotes — not an
"infinite ttl" marker), and on read an entry carrying a zero header is
treated as expired whenever `now` is after the epoch: the read reports the
is-nil miss. -/
theorem c5_zero_header_expired (payload : List Nat) (s : Store) (pfx key : String)
    (ttls : List Int) (now : Int) (hk : key ≠ "")
    (hs : s.getResp (pfx ++ key) = (List.replicate 8 0 ++ payload, none))
    (hnow : 0 < now) :
    getTimeFromBytes (List.replicate 8 0 ++ payload) = 0
    ∧ ((Cache.mk pfx ttls [s] none).getBytes key now).2.2 = .error .isNil := by
  have htake : (List.replicate 8 (0 : Nat) ++ payload).take 8 = List.replicate 8 0 := by
    rw [show (8 : Nat) = (List.replicate 8 (0 : Nat)).length from by simp]
    exact List.take_left _ _
  have hzero : getTimeFromBytes (List.replicate 8 0 ++ payload) = 0 := by
    unfold getTimeFromBytes beUint64
    rw [htake]
    decide
  refine ⟨hzero, ?_⟩
  set B : List Nat := List.replicate 8 0 ++ payload with hB
  have hlen : timestampByteSize ≤ B.length := by
    rw [hB]; simp [timestampByteSize]
  have hexp : getTimeFromBytes B < now := by
    rw [hB, hzero]; omega
  have hneg : getTimeFromBytes B - now < 0 := by omega
  simp [Cache.getBytes, Cache.getKey, hk, Cache.getLoop, hs, hlen, hneg]

/-- Witness for C5: the concrete zero-header single-store cache at
`now = 1000`. -/
theorem c5_witness :
    getTimeFromBytes (List.replicate 8 0 ++ [3]) = 0
    ∧ ((Cache.mk "" [10] [okStore "k" (List.replicate 8 0 ++ [3])] none).getBytes
        "k" 1000).2.2 = .error .isNil :=
  c5_zero_header_expired [3] (okStore "k" (List.replicate 8 0 ++ [3])) "" "k" [10] 1000
    (by decide) rfl (by decide)

/-- A two-store read where store 0 misses (short or expired entry) and store 1
answers a fresh entry with no read error: the loop promotes the original
buffer into store 0 with the remaining ttl and returns the payload. -/
theorem getLoop_two_tier (C : Cache) (k : String) (now : Int) (s0 s1 : Store)
    (b0 : List Nat) (e0 : Option Err) (b1 : List Nat)
    (hC : C.stores = [s0, s1]) (hcomp : C.compressor = none)
    (h0 : s0.getResp k = (b0, e0))
    (hmiss : b0.length < timestampByteSize ∨ getTimeFromBytes b0 < now)
    (h1 : s1.getResp k = (b1, none))
    (hlen : timestampByteSize ≤ b1.length)
    (hfresh : now ≤ getTimeFromBytes b1)
    (hpay : b1.drop timestampByteSize ≠ []) :
    C.getLoop k now [s0, s1] 0 =
      (C.stores.set 0 (s0.doSet k b1 (getTimeFromBytes b1 - now)).1,
       [Effect.set 0 k b1 (getTimeFromBytes b1 - now)],
       .ok (b1.drop timestampByteSize, getTimeFromBytes b1 - now)) := by
  have hstep1 : C.getLoop k now [s0, s1] 0 = C.getLoop k now [s1] 1 := by
    rcases hmiss with hlen0 | hexp
    · simp [Cache.getLoop, h0, Nat.not_le.mpr hlen0]
    · by_cases hl : timestampByteSize ≤ b0.length
      · have hneg : getTimeFromBytes b0 - now < 0 := by omega
        simp [Cache.getLoop, h0, hl, hneg]
      · simp [Cache.getLoop, h0, hl]
  have hpos : ¬ getTimeFromBytes b1 - now < 0 := by omega
  rw [hstep1]
  simp [Cache.getLoop, h1, hlen, hpos, hC, Cache.getTTL, Cache.finishGet, hpay, hcomp]

/-- Claim C4: with two stores, when store 0 misses but store 1 holds a valid
unexpired entry, the read returns store 1's payload, issues exactly the one
promotion `Set` into store 0 with the winning buffer, and (when store 0's
`Set` succeeds) store 0 afterwards holds the entry; when store 0's `Set`
fails, the failure is swallowed — the read still returns the payload and
store 0 is simply left unchanged. -/
theorem c4_tier_fallback (pfx key : String) (ttls : List Int) (now : Int)
    (s0 s0f s1 : Store) (b0 : List Nat) (e0 : Option Err) (b1 : List Nat) (er : Err)
    (hk : key ≠ "")
    (h0 : s0.getResp (pfx ++ key) = (b0, e0))
    (h0f : s0f.getResp (pfx ++ key) = (b0, e0))
    (hmiss : b0.length < timestampByteSize ∨ getTimeFromBytes b0 < now)
    (h1 : s1.getResp (pfx ++ key) = (b1, none))
    (hlen : timestampByteSize ≤ b1.length)
    (hfresh : now ≤ getTimeFromBytes b1)
    (hpay : b1.drop timestampByteSize ≠ [])
    (hset : s0.setErr = none)
    (hsetf : s0f.setErr = some er) :
    ((Cache.mk pfx ttls [s0, s1] none).getBytes key now).2.2
        = .ok (b1.drop timestampByteSize, getTimeFromBytes b1 - now)
    ∧ ((Cache.mk pfx ttls [s0, s1] none).getBytes key now).2.1
        = [Effect.set 0 (pfx ++ key) b1 (getTimeFromBytes b1 - now)]
    ∧ (((Cache.mk pfx ttls [s0, s1] none).getBytes key now).1.getD 0 emptyStore).getResp
        (pfx ++ key) = (b1, none)
    ∧ ((Cache.mk pfx ttls [s0f, s1] none).getBytes key now).2.2
        = .ok (b1.drop timestampByteSize, getTimeFromBytes b1 - now)
    ∧ ((Cache.mk pfx ttls [s0f, s1] none).getBytes key now).1 = [s0f, s1] := by
  have hA := getLoop_two_tier (Cache.mk pfx ttls [s0, s1] none) (pfx ++ key) now
    s0 s1 b0 e0 b1 rfl rfl h0 hmiss h1 hlen hfresh hpay
  have hB := getLoop_two_tier (Cache.mk pfx ttls [s0f, s1] none) (pfx ++ key) now
    s0f s1 b0 e0 b1 rfl rfl h0f hmiss h1 hlen hfresh hpay
  have hbytesA : (Cache.mk pfx ttls [s0, s1] none).getBytes key now
      = (Cache.mk pfx ttls [s0, s1] none).getLoop (pfx ++ key) now [s0, s1] 0 := by
    simp [Cache.getBytes, Cache.getKey, hk]
  have hbytesB : (Cache.mk pfx ttls [s0f, s1] none).getBytes key now
      = (Cache.mk pfx ttls [s0f, s1] none).getLoop (pfx ++ key) now [s0f, s1] 0 := by
    simp [Cache.getBytes, Cache.getKey, hk]
  refine ⟨?_, ?_, ?_, ?_, ?_⟩
  · rw [hbytesA, hA]
  · rw [hbytesA, hA]
  · rw [hbytesA, hA]
    simp [Store.doSet, hset]
  · rw [hbytesB, hB]
  · rw [hbytesB, hB]
    rw [doSet_fail s0f (pfx ++ key) b1 (getTimeFromBytes b1 - now) er hsetf]
    rfl

/-- Witness for C4: concrete two-tier fallback at `now = 1000` with tier-1
entry expiring at 1100; one copy with a succeeding tier-0 `Set`, one with a
failing one. -/
theorem c4_witness :
    ((Cache.mk "" [10] [emptyStore, okStore "k" (hdrBytes 1100 ++ [7])] none).getBytes
        "k" 1000).2.2 = .ok ((hdrBytes 1100 ++ [7]).drop timestampByteSize,
          getTimeFromBytes (hdrBytes 1100 ++ [7]) - 1000)
    ∧ ((Cache.mk "" [10] [emptyStore, okStore "k" (hdrBytes 1100 ++ [7])] none).getBytes
        "k" 1000).2.1 = [Effect.set 0 ("" ++ "k") (hdrBytes 1100 ++ [7])
          (getTimeFromBytes (hdrBytes 1100 ++ [7]) - 1000)]
    ∧ (((Cache.mk "" [10] [emptyStore, okStore "k" (hdrBytes 1100 ++ [7])] none).getBytes
        "k" 1000).1.getD 0 emptyStore).getResp ("" ++ "k") = (hdrBytes 1100 ++ [7], none)
    ∧ ((Cache.mk "" [10] [withSetErr emptyStore (.e 9), okStore "k" (hdrBytes 1100 ++ [7])]
        none).getBytes "k" 1000).2.2 = .ok ((hdrBytes 1100 ++ [7]).drop timestampByteSize,
          getTimeFromBytes (hdrBytes 1100 ++ [7]) - 1000)
    ∧ ((Cache.mk "" [10] [withSetErr emptyStore (.e 9), okStore "k" (hdrBytes 1100 ++ [7])]
        none).getBytes "k" 1000).1
        = [withSetErr emptyStore (.e 9), okStore "k" (hdrBytes 1100 ++ [7])] :=
  c4_tier_fallback "" "k" [10] 1000 emptyStore (withSetErr emptyStore (.e 9))
    (okStore "k" (hdrBytes 1100 ++ [7])) [] none (hdrBytes 1100 ++ [7]) (.e 9)
    (by decide) rfl rfl (Or.inl (by decide)) (by decide) (by decide) (by decide)
    (by decide) rfl rfl

/-- Every effect the read loop issues is the promotion write against store
index 0 under the read key, and the stores past index 0 are never changed. -/
theorem getLoop_frame (c : Cache) (key : String) (now : Int) :
    ∀ (rest : List Store) (i : Nat),
      ((c.getLoop key now rest i).2.1.all (isPromotionWrite key) = true)
      ∧ ((c.getLoop key now rest i).1.drop 1 = c.stores.drop 1) := by
  intro rest
  induction rest with
  | nil => intro i; simp [Cache.getLoop]
  | cons s rest ih =>
    intro i
    cases hb : ((s.getResp key).2.isSome && rest.isEmpty) with
    | true => simp [Cache.getLoop, hb]
    | false =>
      by_cases h2 : timestampByteSize ≤ (s.getResp key).1.length
      · by_cases h3 : getTimeFromBytes (s.getResp key).1 - now < 0
        · have := ih (i + 1)
          simp only [Cache.getLoop, hb, h2, h3]
          simpa using this
        · by_cases h4 : i = 0
          · simp [Cache.getLoop, hb, h2, h3, h4]
          · simp [Cache.getLoop, hb, h2, h3, h4, isPromotionWrite]
            rcases hcs : c.stores with _ | ⟨a, l⟩ <;> simp [hcs]
      · have := ih (i + 1)
        simp only [Cache.getLoop, hb, h2]
        simpa using this

/-- Claim C9: during any read, the only store the orchestrator may write to
is store 0 (every trace entry is the promotion `Set` at index 0 on the
prefixed key), stores at index 1 and beyond are never written or deleted
(their list tail is returned untouched); moreover a read answered by a fresh
entry at store 0 (the second cache `d`) performs no store write at all and
returns the store list unchanged. -/
theorem c9_read_only_writes_store0 (c : Cache) (key : String) (now : Int)
    (d : Cache) (key2 : String) (now2 : Int) (b : List Nat) (s : Store)
    (rest : List Store)
    (hk2 : key2 ≠ "")
    (hd : d.stores = s :: rest)
    (hb : s.getResp (d.keyPfx ++ key2) = (b, none))
    (hlen : timestampByteSize ≤ b.length)
    (hfresh : now2 ≤ getTimeFromBytes b) :
    ((c.getBytes key now).2.1.all (isPromotionWrite (c.keyPfx ++ key)) = true)
    ∧ ((c.getBytes key now).1.drop 1 = c.stores.drop 1)
    ∧ ((d.getBytes key2 now2).2.1 = [])
    ∧ ((d.getBytes key2 now2).1 = d.stores) := by
  have hcneg : ¬ getTimeFromBytes b - now2 < 0 := by omega
  have hhit : d.getBytes key2 now2
      = (d.stores, [], d.finishGet (b.drop timestampByteSize) (getTimeFromBytes b - now2)) := by
    have hstep : d.getBytes key2 now2 = d.getLoop (d.keyPfx ++ key2) now2 d.stores 0 := by
      simp [Cache.getBytes, Cache.getKey, hk2]
    rw [hstep, hd]
    cases rest with
    | nil => simp [Cache.getLoop, hb, hlen, hcneg, hd]
    | cons s2 rest2 => simp [Cache.getLoop, hb, hlen, hcneg, hd]
  refine ⟨?_, ?_, ?_, ?_⟩
  · by_cases hkey : key = ""
    · simp [Cache.getBytes, Cache.getKey, hkey]
    · have hstep : c.getBytes key now = c.getLoop (c.keyPfx ++ key) now c.stores 0 := by
        simp [Cache.getBytes, Cache.getKey, hkey]
      rw [hstep]
      exact (getLoop_frame c (c.keyPfx ++ key) now c.stores 0).1
  · by_cases hkey : key = ""
    · simp [Cache.getBytes, Cache.getKey, hkey]
    · have hstep : c.getBytes key now = c.getLoop (c.keyPfx ++ key) now c.stores 0 := by
        simp [Cache.getBytes, Cache.getKey, hkey]
      rw [hstep]
      exact (getLoop_frame c (c.keyPfx ++ key) now c.stores 0).2
  · rw [hhit]
  · rw [hhit]

/-- Witness for C9: the promotion scenario of C1/C4 for the general frame
facts, and a single-store fresh hit for the no-write fact. -/
theorem c9_witness :
    (((Cache.mk "" [10] [emptyStore, okStore "k" (hdrBytes 1100 ++ [7])] none).getBytes
        "k" 1000).2.1.all (isPromotionWrite ("" ++ "k")) = true)
    ∧ (((Cache.mk "" [10] [emptyStore, okStore "k" (hdrBytes 1100 ++ [7])] none).getBytes
        "k" 1000).1.drop 1
        = (Cache.mk "" [10] [emptyStore, okStore "k" (hdrBytes 1100 ++ [7])] none).stores.drop 1)
    ∧ (((Cache.mk "" [10] [okStore "k" (hdrBytes 1100 ++ [7])] none).getBytes
        "k" 1000).2.1 = [])
    ∧ (((Cache.mk "" [10] [okStore "k" (hdrBytes 1100 ++ [7])] none).getBytes
        "k" 1000).1
        = (Cache.mk "" [10] [okStore "k" (hdrBytes 1100 ++ [7])] none).stores) :=
  c9_read_only_writes_store0
    (Cache.mk "" [10] [emptyStore, okStore "k" (hdrBytes 1100 ++ [7])] none) "k" 1000
    (Cache.mk "" [10] [okStore "k" (hdrBytes 1100 ++ [7])] none) "k" 1000
    (hdrBytes 1100 ++ [7]) (okStore "k" (hdrBytes 1100 ++ [7])) []
    (by decide) rfl rfl (by decide) (by decide)

/-- The last-store error ignores a prepended response when the tail is
non-empty. -/
theorem lastStoreErr_cons (r : List Nat × Option Err)
    (resps : List (List Nat × Option Err)) (h : resps ≠ []) :
    lastStoreErr (r :: resps) = lastStoreErr resps := by
  unfold lastStoreErr
  cases resps with
  | nil => exact absurd rfl h
  | cons b l => rw [List.getLast?_cons_cons]

/-- A non-winning response in front of at least one other store does not
change the declarative read result. -/
theorem getResultSpec_cons_skip (now : Int) (r : List Nat × Option Err)
    (resps : List (List Nat × Option Err)) (hw : winB now r = false)
    (hne : resps ≠ []) :
    getResultSpec now (r :: resps) = getResultSpec now resps := by
  unfold getResultSpec
  rw [lastStoreErr_cons r resps hne]
  simp only [firstWinIdx, hw, Bool.false_eq_true, if_false]
  cases hfw : firstWinIdx now resps with
  | none => simp
  | some w =>
    simp only [Option.map_some']
    have hlenb : decide (w + 1 + 1 = (r :: resps).length)
        = decide (w + 1 = resps.length) := by
      simp [List.length_cons]
    rw [hlenb, List.getD_cons_succ]

/-- The read loop result equals the declarative first-winner description of
the remaining stores' responses, for a cache with no compressor.  The index
argument only controls whether the promotion write happens; it never changes
the returned value. -/
theorem getLoop_result (c : Cache) (key : String) (now : Int)
    (hc : c.compressor = none) :
    ∀ (rest : List Store) (i : Nat),
      (c.getLoop key now rest i).2.2
        = getResultSpec now (rest.map (fun st => st.getResp key)) := by
  intro rest
  induction rest with
  | nil => intro i; rfl
  | cons s rest ih =>
    intro i
    rcases hr : s.getResp key with ⟨buf, e⟩
    have hmapcons : (s :: rest).map (fun st => st.getResp key)
        = (buf, e) :: rest.map (fun st => st.getResp key) := by simp [hr]
    rw [hmapcons]
    cases rest with
    | nil =>
      cases e with
      | some er =>
        have hloop : c.getLoop key now [s] i = (c.stores, [], .error er) := by
          simp [Cache.getLoop, hr]
        rw [hloop]
        by_cases hw : winB now (buf, some er) = true
        · simp [getResultSpec, firstWinIdx, hw, lastStoreErr]
        · have hw' : winB now (buf, some er) = false := by
            exact Bool.eq_false_iff.mpr hw
          simp [getResultSpec, firstWinIdx, hw', lastStoreErr]
      | none =>
        by_cases hlen : timestampByteSize ≤ buf.length
        · by_cases hneg : getTimeFromBytes buf - now < 0
          · have hw : winB now (buf, (none : Option Err)) = false := by
              simp [winB]
              intro _
              omega
            have hloop : c.getLoop key now [s] i = (c.stores, [], .error .isNil) := by
              simp [Cache.getLoop, hr, hlen, hneg]
            rw [hloop]
            simp [getResultSpec, firstWinIdx, hw, lastStoreErr]
          · have hw : winB now (buf, (none : Option Err)) = true := by
              simp [winB, hlen]
              omega
            have hloop : (c.getLoop key now [s] i).2.2
                = c.finishGet (buf.drop timestampByteSize) (getTimeFromBytes buf - now) := by
              by_cases hi : i = 0
              · simp [Cache.getLoop, hr, hlen, hneg, hi]
              · simp [Cache.getLoop, hr, hlen, hneg, hi, Cache.getTTL]
            rw [hloop]
            simp [getResultSpec, firstWinIdx, hw, lastStoreErr, Cache.finishGet, hc]
        · have hw : winB now (buf, (none : Option Err)) = false := by
            simp [winB, hlen]
          have hloop : c.getLoop key now [s] i = (c.stores, [], .error .isNil) := by
            simp [Cache.getLoop, hr, hlen]
          rw [hloop]
          simp [getResultSpec, firstWinIdx, hw, lastStoreErr]
    | cons s2 rest2 =>
      have hne : (s2 :: rest2).map (fun st => st.getResp key) ≠ [] := by simp
      by_cases hlen : timestampByteSize ≤ buf.length
      · by_cases hneg : getTimeFromBytes buf - now < 0
        · have hw : winB now (buf, e) = false := by
            simp [winB]
            intro _
            omega
          have hloop : c.getLoop key now (s :: s2 :: rest2) i
              = c.getLoop key now (s2 :: rest2) (i + 1) := by
            simp [Cache.getLoop, hr, hlen, hneg]
          rw [hloop, getResultSpec_cons_skip now (buf, e) _ hw hne]
          exact ih (i + 1)
        · have hw : winB now (buf, e) = true := by
            simp [winB, hlen]
            omega
          have hloop : (c.getLoop key now (s :: s2 :: rest2) i).2.2
              = c.finishGet (buf.drop timestampByteSize) (getTimeFromBytes buf - now) := by
            by_cases hi : i = 0
            · simp [Cache.getLoop, hr, hlen, hneg, hi]
            · simp [Cache.getLoop, hr, hlen, hneg, hi, Cache.getTTL]
          rw [hloop]
          have hcond : (decide (0 + 1
              = ((buf, e) :: ((s2 :: rest2).map fun st => st.getResp key)).length)
              && (lastStoreErr ((buf, e) :: ((s2 :: rest2).map fun st => st.getResp key))).isSome)
              = false := by
            simp
          simp [getResultSpec, firstWinIdx, hw, hcond, Cache.finishGet, hc]
      · have hw : winB now (buf, e) = false := by
          simp [winB, hlen]
        have hloop : c.getLoop key now (s :: s2 :: rest2) i
            = c.getLoop key now (s2 :: rest2) (i + 1) := by
          simp [Cache.getLoop, hr, hlen]
        rw [hloop, getResultSpec_cons_skip now (buf, e) _ hw hne]
        exact ih (i + 1)

/-- Claim C2 (amended): for a non-empty key on a cache without a compressor,
the read result is exactly the declarative `getResultSpec` over the stores'
responses: it fails with the last store's error verbatim when no earlier
store yielded a winning entry (at least 8 bytes with decoded expiry at or
after `now` — a strictly negative remaining ttl counts as a miss, a zero one
as a hit) and the last store's read errored; it fails with the is-nil error
when no store yielded a winning entry, and also when the first winning entry
is exactly the 8-byte header with empty payload; otherwise it returns the
winning payload and remaining ttl.  A read error from a non-last store never
fails the call. -/
theorem c2_get_result_characterization (c : Cache) (key : String) (now : Int)
    (hk : key ≠ "") (hc : c.compressor = none) :
    (c.getBytes key now).2.2
      = getResultSpec now (c.stores.map (fun st => st.getResp (c.keyPfx ++ key))) := by
  have hstep : c.getBytes key now = c.getLoop (c.keyPfx ++ key) now c.stores 0 := by
    simp [Cache.getBytes, Cache.getKey, hk]
  rw [hstep]
  exact getLoop_result c (c.keyPfx ++ key) now hc c.stores 0

/-- Claim C2 (counterexample to the claim as stated): a single store answers
an entry whose decoded expiry equals `now = 5` — not strictly in the future —
and reports no read error, so by the claim the call must fail with the
is-nil error; the code treats remaining ttl 0 as a hit and returns the
payload `[42]`. -/
theorem c2_counterexample :
    ((Cache.mk "" [10] [okStore "k" (hdrBytes 5 ++ [42])] none).getBytes "k" 5).2.2
      = .ok ([42], 0)
    ∧ getTimeFromBytes (hdrBytes 5 ++ [42]) = 5 :=
  ⟨rfl, rfl⟩

/-- Witness for C2: a two-store cache whose first store errors (the error is
swallowed) and whose second (last) store holds a fresh entry. -/
theorem c2_witness :
    ((Cache.mk "" [10] [errGetStore (.e 5), okStore "k" (hdrBytes 1100 ++ [7])]
        none).getBytes "k" 1000).2.2
      = getResultSpec 1000
          ((Cache.mk "" [10] [errGetStore (.e 5), okStore "k" (hdrBytes 1100 ++ [7])]
            none).stores.map (fun st => st.getResp
              ((Cache.mk "" [10] [errGetStore (.e 5), okStore "k" (hdrBytes 1100 ++ [7])]
                none).keyPfx ++ "k"))) :=
  c2_get_result_characterization
    (Cache.mk "" [10] [errGetStore (.e 5), okStore "k" (hdrBytes 1100 ++ [7])] none)
    "k" 1000 (by decide) rfl

/-- The write loop on a buffer whose tail past the header is `payload` equals
the declarative first-failure description: all stores written in order when
none fails, else the stores up to and including the first failing one, whose
error is returned. -/
theorem setLoop_spec (c : Cache) (key : String) (data payload : List Nat)
    (ttls : List Int) (nows : Nat → Int)
    (hdp : data.drop 8 = payload) :
    ∀ (rest : List Store) (i : Nat) (acc : List Store),
      c.setLoop key data ttls nows rest i acc =
        match firstSetFailIdx rest with
        | none =>
          (acc.reverse ++ setStoresSpec c key payload ttls nows i rest.length rest,
           (List.range rest.length).map (fun j =>
             Effect.set (i + j) key (setEntry c payload ttls nows (i + j))
               (c.getTTL (i + j) ttls)),
           none)
        | some m =>
          (acc.reverse ++ setStoresSpec c key payload ttls nows i (m + 1) rest,
           (List.range (m + 1)).map (fun j =>
             Effect.set (i + j) key (setEntry c payload ttls nows (i + j))
               (c.getTTL (i + j) ttls)),
           (rest.getD m emptyStore).setErr) := by
  have hwi : ∀ i : Nat, writeTimeToBytes (nows i + c.getTTL i ttls) data
      = setEntry c payload ttls nows i := by
    intro i
    unfold writeTimeToBytes setEntry
    rw [hdp]
  intro rest
  induction rest with
  | nil =>
    intro i acc
    simp [Cache.setLoop, firstSetFailIdx, setStoresSpec]
  | cons s rest ih =>
    intro i acc
    cases hse : s.setErr with
    | some er =>
      have hff : firstSetFailIdx (s :: rest) = some 0 := by
        simp [firstSetFailIdx, hse]
      rw [hff]
      have hstep : c.setLoop key data ttls nows (s :: rest) i acc
          = (acc.reverse ++ s :: rest,
             [Effect.set i key (setEntry c payload ttls nows i) (c.getTTL i ttls)],
             some er) := by
        simp only [Cache.setLoop, hwi]
        rw [doSet_fail s key (setEntry c payload ttls nows i) (c.getTTL i ttls) er hse]
      rw [hstep]
      refine congrArg₂ Prod.mk ?_ (congrArg₂ Prod.mk ?_ ?_)
      · show acc.reverse ++ s :: rest
          = acc.reverse ++ setStoresSpec c key payload ttls nows i (0 + 1) (s :: rest)
        refine congrArg _ ?_
        show s :: rest
          = (s.doSet key (setEntry c payload ttls nows i) (c.getTTL i ttls)).1
              :: setStoresSpec c key payload ttls nows (i + 1) 0 rest
        rw [doSet_fail s key (setEntry c payload ttls nows i) (c.getTTL i ttls) er hse]
        cases rest <;> rfl
      · rw [show List.range 1 = [0] from rfl]
        simp
      · simp [hse]
    | none =>
      have hff : firstSetFailIdx (s :: rest) = (firstSetFailIdx rest).map (· + 1) := by
        simp [firstSetFailIdx, hse]
      rw [hff]
      have hsnd : (s.doSet key (setEntry c payload ttls nows i) (c.getTTL i ttls)).2
          = none := by
        rw [doSet_err, hse]
      have hstep : c.setLoop key data ttls nows (s :: rest) i acc
          = ((c.setLoop key data ttls nows rest (i + 1)
                ((s.doSet key (setEntry c payload ttls nows i) (c.getTTL i ttls)).1 :: acc)).1,
             Effect.set i key (setEntry c payload ttls nows i) (c.getTTL i ttls)
               :: (c.setLoop key data ttls nows rest (i + 1)
                    ((s.doSet key (setEntry c payload ttls nows i)
                      (c.getTTL i ttls)).1 :: acc)).2.1,
             (c.setLoop key data ttls nows rest (i + 1)
                ((s.doSet key (setEntry c payload ttls nows i)
                  (c.getTTL i ttls)).1 :: acc)).2.2) := by
        simp only [Cache.setLoop, hwi]
        rw [hsnd]
      rw [hstep,
        ih (i + 1) ((s.doSet key (setEntry c payload ttls nows i) (c.getTTL i ttls)).1 :: acc)]
      cases hfr : firstSetFailIdx rest with
      | none =>
        simp only [Option.map_none']
        refine congrArg₂ Prod.mk ?_ (congrArg₂ Prod.mk ?_ rfl)
        · show ((s.doSet key (setEntry c payload ttls nows i) (c.getTTL i ttls)).1
              :: acc).reverse ++ setStoresSpec c key payload ttls nows (i + 1) rest.length rest
            = acc.reverse ++ setStoresSpec c key payload ttls nows i (rest.length + 1) (s :: rest)
          rw [List.reverse_cons, List.append_assoc]
          refine congrArg _ ?_
          cases rest <;> rfl
        · rw [List.length_cons, range_map_offset_succ (fun idx =>
            Effect.set idx key (setEntry c payload ttls nows idx) (c.getTTL idx ttls))
            rest.length i]
      | some m =>
        simp only [Option.map_some']
        refine congrArg₂ Prod.mk ?_ (congrArg₂ Prod.mk ?_ ?_)
        · show ((s.doSet key (setEntry c payload ttls nows i) (c.getTTL i ttls)).1
              :: acc).reverse ++ setStoresSpec c key payload ttls nows (i + 1) (m + 1) rest
            = acc.reverse ++ setStoresSpec c key payload ttls nows i (m + 1 + 1) (s :: rest)
          rw [List.reverse_cons, List.append_assoc]
          refine congrArg _ ?_
          cases rest <;> rfl
        · rw [range_map_offset_succ (fun idx =>
            Effect.set idx key (setEntry c payload ttls nows idx) (c.getTTL idx ttls))
            (m + 1) i]
        · rw [List.getD_cons_succ]

/-- Claim C3: a `Set`/`SetBytes` call with a non-empty key whose payload
encoding succeeds writes the stores strictly in configured order; store `i`
receives the buffer `header(now_i + ttl_i) ++ payload` (8 extra header bytes,
remaining bytes the encoded payload unchanged) with `ttl_i` also passed as
the store-level ttl, where `ttl_i` is the call's override if supplied, else
the tier's configured ttl; the first store `Set` error aborts the remaining
writes and is returned, earlier stores keep their writes and later stores are
untouched. -/
theorem c3_set_order_and_abort (c : Cache) (key : String) (value payload : List Nat)
    (ttls : List Int) (nows : Nat → Int) (hk : key ≠ "")
    (hp : c.encodeValue value = .ok payload) :
    c.setBytes key value ttls nows = setBytesSpec c (c.keyPfx ++ key) payload ttls nows := by
  have hstep : c.setBytes key value ttls nows
      = c.setLoop (c.keyPfx ++ key) (List.replicate timestampByteSize 0 ++ payload)
          ttls nows c.stores 0 [] := by
    unfold Cache.setBytes Cache.getKey
    rw [if_neg hk, hp]
  have hdp : (List.replicate timestampByteSize 0 ++ payload).drop 8 = payload := by
    simp [timestampByteSize]
  rw [hstep, setLoop_spec c (c.keyPfx ++ key) _ payload ttls nows hdp c.stores 0 []]
  unfold setBytesSpec setWrites
  cases hfs : firstSetFailIdx c.stores with
  | none =>
    simp only [List.reverse_nil, List.nil_append]
    refine congrArg₂ Prod.mk rfl (congrArg₂ Prod.mk ?_ rfl)
    exact range_map_offset_zero (fun idx =>
      Effect.set idx (c.keyPfx ++ key) (setEntry c payload ttls nows idx)
        (c.getTTL idx ttls)) _
  | some m =>
    simp only [List.reverse_nil, List.nil_append]
    refine congrArg₂ Prod.mk rfl (congrArg₂ Prod.mk ?_ rfl)
    exact range_map_offset_zero (fun idx =>
      Effect.set idx (c.keyPfx ++ key) (setEntry c payload ttls nows idx)
        (c.getTTL idx ttls)) _

/-- Witness for C3: two stores with the second one failing, distinct per-tier
ttls `[10, 20]`, no override, and a per-iteration clock. -/
theorem c3_witness :
    (Cache.mk "p:" [10, 20] [emptyStore, withSetErr emptyStore (.e 3)] none).setBytes
        "k" [9] [] (fun i => 1000 + 100 * (i : Int))
      = setBytesSpec (Cache.mk "p:" [10, 20] [emptyStore, withSetErr emptyStore (.e 3)] none)
          ((Cache.mk "p:" [10, 20] [emptyStore, withSetErr emptyStore (.e 3)] none).keyPfx
            ++ "k") [9] [] (fun i => 1000 + 100 * (i : Int)) :=
  c3_set_order_and_abort
    (Cache.mk "p:" [10, 20] [emptyStore, withSetErr emptyStore (.e 3)] none)
    "k" [9] [9] [] (fun i => 1000 + 100 * (i : Int)) (by decide) rfl

end GoCache
